import Mathlib

/-!
Shallow embedding of the two batch jobs of this repository,
`build_parts_json.py` (parts snapshot builder) and `build_shopify_map.py`
(commerce map builder), together with theorems settling the specification
claims about them.

Conventions of the embedding:
* Python strings are Lean `String`s; `str.strip()` / `str.lower()` are
  modelled on their ASCII behaviour (all inputs appearing in the spec and
  in the code are ASCII).
* Python floats carry no arithmetic in this code base (they are only
  converted, compared to `0.0` for truthiness, and serialized), so prices
  are modelled as rationals (`Rat`).
* Python ints are `Int`, dicts are insertion-ordered association lists,
  sets are duplicate-free lists, and a raised exception is the `.error`
  case of an `Except` value.
-/

namespace PartsJson

/-- Decimal digit character for a digit `d < 10` (the digits produced by a
Python f-string when formatting a natural number). -/
def digitChar : Nat → Char
  | 0 => '0' | 1 => '1' | 2 => '2' | 3 => '3' | 4 => '4'
  | 5 => '5' | 6 => '6' | 7 => '7' | 8 => '8' | _ => '9'

/-- Fuelled decimal rendering of a natural number, most significant digit
first; the fuel is always called with at least `n + 1`, which is enough. -/
def decDigitsAux : Nat → Nat → List Char
  | 0, _ => []
  | fuel + 1, n =>
    if n < 10 then [digitChar n]
    else decDigitsAux fuel (n / 10) ++ [digitChar (n % 10)]

/-- Decimal digit list of a natural number, as produced by `f"{n}"`. -/
def decDigits (n : Nat) : List Char := decDigitsAux (n + 1) n

/-- Decimal string of a natural number, as produced by `f"{n}"`. -/
def decStr (n : Nat) : String := ⟨decDigits n⟩

/-- Value of a digit list, used to show `decDigits` is injective. -/
def decVal (cs : List Char) : Nat := cs.foldl (fun a c => 10 * a + (c.toNat - 48)) 0

/-- Python `a or b` on strings: `a` when non-empty (truthy), else `b`. -/
def orS (a b : String) : String := if a ≠ "" then a else b

/-- ASCII lowercasing, modelling `str.lower()`. -/
def lowerStr (s : String) : String := ⟨s.data.map Char.toLower⟩

/-- Python `str.strip()` with no arguments (whitespace from both ends). -/
def pyStrip (s : String) : String :=
  ⟨((s.data.dropWhile Char.isWhitespace).reverse.dropWhile Char.isWhitespace).reverse⟩

/-- Character class `[a-z0-9]` of the `_slug` regexes (source lines 54-55). -/
def isSlugChar (c : Char) : Bool :=
  (97 ≤ c.toNat && c.toNat ≤ 122) || (48 ≤ c.toNat && c.toNat ≤ 57)

/-- Replacement of each maximal run of characters outside `[a-z0-9]` by a
single hyphen, modelling `re.sub(r"[^a-z0-9]+", "-", s)`; the flag records
whether the previous character was part of such a run. -/
def collapseAux : Bool → List Char → List Char
  | _, [] => []
  | inRun, c :: cs =>
    if isSlugChar c then c :: collapseAux false cs
    else if inRun then collapseAux true cs
    else '-' :: collapseAux true cs

/-- The substitution `re.sub(r"[^a-z0-9]+", "-", s)` (source line 54). -/
def collapseRuns (cs : List Char) : List Char := collapseAux false cs

/-- Replacement of each maximal run of hyphens by a single hyphen, modelling
`re.sub(r"-+", "-", s)` (source line 55). -/
def collapseHyAux : Bool → List Char → List Char
  | _, [] => []
  | inRun, c :: cs =>
    if c = '-' then
      if inRun then collapseHyAux true cs else '-' :: collapseHyAux true cs
    else c :: collapseHyAux false cs

/-- The substitution `re.sub(r"-+", "-", s)` (source line 55). -/
def collapseHyphens (cs : List Char) : List Char := collapseHyAux false cs

/-- Python `str.strip("-")`. -/
def stripHyphens (cs : List Char) : List Char :=
  ((cs.dropWhile (fun c => c = '-')).reverse.dropWhile (fun c => c = '-')).reverse

/-- The function `_slug` of `build_parts_json.py` (source lines 52-55):
strip, lowercase, collapse non-alphanumeric runs to single hyphens,
collapse hyphen runs, strip hyphens from both ends. -/
def slug (s : String) : String :=
  ⟨stripHyphens (collapseHyphens (collapseRuns (lowerStr (pyStrip s)).data))⟩

/-- The candidate id `f"{orig}-{i}"` tried by the collision loop of
`ensure_model_id` (source line 121). -/
def suffixId (orig : String) (i : Nat) : String := orig ++ "-" ++ decStr i

/-- The collision-avoidance loop of `ensure_model_id` (source lines
118-122): starting from suffix `i`, try `orig-i`, `orig-(i+1)`, ... until a
candidate is not among the existing ids. The fuel argument bounds the
search; the loop is always started with enough fuel that the bound is
never reached. -/
def freshLoop (ids : List String) (orig : String) : Nat → Nat → String
  | i, 0 => suffixId orig i
  | i, fuel + 1 =>
    if suffixId orig i ∈ ids then freshLoop ids orig (i + 1) fuel
    else suffixId orig i

/-- The fresh model id chosen by `ensure_model_id` (source lines 117-122):
the slug itself when unused, else the first unused `slug-i`, `i = 2, 3, ...`. -/
def freshId (ids : List String) (orig : String) : String :=
  if orig ∈ ids then freshLoop ids orig 2 (ids.length + 1) else orig

/-- A normalized source row: the dict appended by `load_lark_spare_parts`
(source lines 91-99). The fields `Part #`, `Part Name`, `Model number`,
`Model Name`, `In Stock`, `Picture`, `Price (EUR)` in that order. -/
structure Row where
  partNum : String
  partName : String
  modelNumber : String
  modelName : String
  stock : Int
  picture : String
  price : Rat
deriving DecidableEq, Repr

/-- A value of the `models_by_key` dict (source line 123). -/
structure MModel where
  id : String
  name : String
deriving DecidableEq, Repr

/-- A value of the `parts_by_sku` dict during aggregation (source lines
130-137); `compat` is the `compatible_models` set, kept as a duplicate-free
list in insertion order. -/
structure PartAcc where
  sku : String
  name : String
  price : Rat
  stock : Int
  image : String
  compat : List String
deriving DecidableEq, Repr

/-- An output part record (source lines 154-161). -/
structure Part where
  sku : String
  name : String
  price_eur : Rat
  stock : Int
  image : String
  compatible_models : List String
deriving DecidableEq, Repr

/-- The two dicts of `build_snapshot` (source lines 111 and 126), as
insertion-ordered association lists. -/
structure AggState where
  models : List (String × MModel)
  parts : List (String × PartAcc)
deriving DecidableEq, Repr

/-- The function `ensure_model_id` (source lines 112-124): returns the
model id for the row's model key (`none` when the key is empty, line 115)
together with the updated `models_by_key`. -/
def ensureModelId (models : List (String × MModel)) (modelNumber modelName : String) :
    Option String × List (String × MModel) :=
  let key := pyStrip (orS modelNumber (orS modelName ""))
  if key = "" then (none, models)
  else
    match models.lookup key with
    | some m => (some m.id, models)
    | none =>
      let base := if modelNumber ≠ "" then slug modelNumber else slug modelName
      let mid := freshId (models.map (fun kv => kv.2.id)) base
      (some mid, models ++ [(key, ⟨mid, orS modelName modelNumber⟩)])

/-- The dict stored on first sight of a SKU (source lines 129-137). -/
def initPart (r : Row) : PartAcc :=
  { sku := r.partNum, name := orS r.partName "", price := r.price,
    stock := r.stock, image := orS r.picture "", compat := [] }

/-- In-place update of the entry at key `k` of an association list,
modelling mutation of a dict value. -/
def updateAt (k : String) (f : β → β) : List (String × β) → List (String × β)
  | [] => []
  | (k', v) :: rest =>
    if k' = k then (k', f v) :: rest else (k', v) :: updateAt k f rest

/-- The insertion `compatible_models.add(mid)` (source line 140). -/
def addCompat (mid : String) (p : PartAcc) : PartAcc :=
  if mid ∈ p.compat then p else { p with compat := p.compat ++ [mid] }

/-- The per-field merge of source lines 142-149. On normalized rows the
`In Stock` value is always produced by `int(...)` (source line 84), so the
`isinstance(..., int)` guard on line 144 always holds and stock is
overwritten by every row; price, image and name are overwritten only by
truthy (non-zero / non-empty) values. -/
def mergeFields (r : Row) (p : PartAcc) : PartAcc :=
  { p with
    price := if r.price ≠ 0 then r.price else p.price,
    stock := r.stock,
    image := if r.picture ≠ "" then r.picture else p.image,
    name := if r.partName ≠ "" then r.partName else p.name }

/-- One iteration of the row loop of `build_snapshot` (source lines
127-149): create the part entry if absent, register the row's model and add
its id to the part's compatible set, then merge the scalar fields. -/
def rowStep (st : AggState) (r : Row) : AggState :=
  let parts0 :=
    if (st.parts.lookup r.partNum).isSome then st.parts
    else st.parts ++ [(r.partNum, initPart r)]
  let res := ensureModelId st.models r.modelNumber r.modelName
  let parts1 :=
    match res.1 with
    | some mid => updateAt r.partNum (addCompat mid) parts0
    | none => parts0
  { models := res.2, parts := updateAt r.partNum (mergeFields r) parts1 }

/-- The aggregation state after the whole row loop of `build_snapshot`. -/
def aggState (rows : List Row) : AggState := rows.foldl rowStep ⟨[], []⟩

/-- Lexicographic order on character lists by code point, modelling
Python's string comparison. -/
def lexLe : List Char → List Char → Bool
  | [], _ => true
  | _ :: _, [] => false
  | a :: as, b :: bs => if a = b then lexLe as bs else decide (a < b)

/-- Python's `<=` on strings: lexicographic by code point. -/
def strLe (s t : String) : Bool := lexLe s.data t.data

/-- The Python string order as a relation, used by the three sorts. -/
def strLeP (a b : String) : Prop := strLe a b = true

instance : DecidableRel strLeP := fun a b => by
  unfold strLeP; infer_instance

/-- The output part built from an accumulated part (source lines 154-161);
`compatible_models` is `sorted(list(set))`, ascending string order. -/
def finalizePart (p : PartAcc) : Part :=
  { sku := p.sku, name := p.name, price_eur := p.price, stock := p.stock,
    image := p.image,
    compatible_models := p.compat.insertionSort strLeP }

/-- The model sort order of source line 151: case-insensitive name. -/
def modelLe (a b : MModel) : Prop := strLeP (lowerStr a.name) (lowerStr b.name)

/-- The part sort order of source line 162: the SKU string. -/
def partLe (a b : Part) : Prop := strLeP a.sku b.sku

instance : DecidableRel modelLe := fun a b => by
  unfold modelLe; infer_instance

instance : DecidableRel partLe := fun a b => by
  unfold partLe; infer_instance

/-- The sorted outputs of `build_snapshot` (source lines 151-162): models
sorted by lowercased display name, parts sorted by SKU. Python's `sorted`
and `list.sort` are stable ascending sorts, as is `insertionSort`. -/
def buildParts (rows : List Row) : List MModel × List Part :=
  let st := aggState rows
  ((st.models.map (fun kv => kv.2)).insertionSort modelLe,
   (st.parts.map (fun kv => finalizePart kv.2)).insertionSort partLe)

/-! Raw-record model. The source table is schema-flexible: a field may
arrive as a scalar, list or object. Values are modelled as a JSON-like
inductive; Python floats appear only as conversion inputs and comparison
operands here, so they are carried as rationals. -/

/-- A Python/JSON-like value stored in a flexible source field. -/
inductive Value where
  | vNull
  | vBool (b : Bool)
  | vInt (n : Int)
  | vFloat (q : Rat)
  | vStr (s : String)
  | vList (xs : List Value)
  | vDict (fields : List (String × Value))

/-- Python truthiness of a value. -/
def truthy : Value → Bool
  | .vNull => false
  | .vBool b => b
  | .vInt n => n != 0
  | .vFloat q => q != 0
  | .vStr s => s != ""
  | .vList xs => !xs.isEmpty
  | .vDict fs => !fs.isEmpty

/-- Python `a or b`. -/
def pyOr (a b : Value) : Value := if truthy a then a else b

/-- Python `f.get(k)`: the stored value, `None` when absent. -/
def dget (f : List (String × Value)) (k : String) : Value := (f.lookup k).getD .vNull

/-- Python `f.get(k, d)`. -/
def dgetD (f : List (String × Value)) (k : String) (d : Value) : Value :=
  (f.lookup k).getD d

/-- Decimal digit test, the class `[0-9]`. -/
def isDigit (c : Char) : Bool := 48 ≤ c.toNat && c.toNat ≤ 57

/-- Parse of an unsigned decimal float body: `digits`, `digits.digits`,
`digits.` or `.digits` (the forms of Python's `float()` met by this data;
exponent forms and named specials do not occur in it). -/
def parseUFloat? (cs : List Char) : Option Rat :=
  let ip := cs.takeWhile isDigit
  match cs.dropWhile isDigit with
  | [] => if ip.isEmpty then none else some ((decVal ip : Nat) : Rat)
  | c :: frac =>
    if c = '.' && frac.all isDigit && !(ip.isEmpty && frac.isEmpty) then
      some ((decVal ip : Nat) + (decVal frac : Nat) / ((10 : Rat) ^ frac.length))
    else none

/-- Python `float(s)` on a string: optional surrounding whitespace and
sign around a decimal body. -/
def parseFloat? (s : String) : Option Rat :=
  match (pyStrip s).data with
  | '+' :: cs => parseUFloat? cs
  | '-' :: cs => (parseUFloat? cs).map (fun q => -q)
  | cs => parseUFloat? cs

/-- Python `int(s)` on a string: optional surrounding whitespace, optional
sign, then decimal digits only (so `int("5.5")` raises). -/
def parseInt? (s : String) : Option Int :=
  match (pyStrip s).data with
  | '+' :: cs => if cs.isEmpty || !cs.all isDigit then none else some (decVal cs : Int)
  | '-' :: cs => if cs.isEmpty || !cs.all isDigit then none else some (-(decVal cs : Int))
  | cs => if cs.isEmpty || !cs.all isDigit then none else some (decVal cs : Int)

/-- Python `float(x)`; `none` models a raised TypeError/ValueError. -/
def pyFloat? : Value → Option Rat
  | .vFloat q => some q
  | .vInt n => some (n : Rat)
  | .vBool b => some (if b then 1 else 0)
  | .vStr s => parseFloat? s
  | _ => none

/-- Python `int(x)`; floats truncate toward zero; `none` models a raised
TypeError/ValueError. -/
def pyInt? : Value → Option Int
  | .vInt n => some n
  | .vBool b => some (if b then 1 else 0)
  | .vFloat q => some (if 0 ≤ q then ⌊q⌋ else ⌈q⌉)
  | .vStr s => parseInt? s
  | _ => none

/-- Python `str(x)` for the shapes this data meets: strings pass through;
None, booleans and integers render as Python renders them; floats and
containers get schematic renderings (no claim exercises them). -/
def pyStr : Value → String
  | .vStr s => s
  | .vNull => "None"
  | .vBool b => if b then "True" else "False"
  | .vInt n => if n < 0 then "-" ++ decStr n.natAbs else decStr n.natAbs
  | .vFloat q => decStr q.num.natAbs ++ ".x"
  | .vList _ => "[...]"
  | .vDict _ => "dict"

/-- String content of a field value as the row dict carries it onward: the
string itself for strings, empty for falsy values. Python would carry a
truthy non-string object itself; its rendering is schematic here and its
truthiness (the only property the aggregation inspects) is preserved. -/
def strOf (v : Value) : String := if truthy v then pyStr v else ""

/-- The function `_to_float` (source lines 44-50): a list is replaced by
its first element (by the default when empty), then `float()` conversion,
any conversion error absorbed by the default. -/
def toFloat (x : Value) (default : Rat) : Rat :=
  match x with
  | .vList [] => default
  | .vList (a :: _) => (pyFloat? a).getD default
  | v => (pyFloat? v).getD default

/-- Per-record normalization: the body of the record loop of
`load_lark_spare_parts` (source lines 73-99). Returns `none` for a dropped
record (falsy `PN`, lines 75-77), `some row` for a kept one, and
`.error ()` when the unguarded `int()` on line 84 raises. -/
def normalizeRecord (f : List (String × Value)) : Except Unit (Option Row) :=
  if ¬ truthy (dget f "PN") then .ok none
  else
    let mnRaw := dgetD f "Model number" (.vDict [])
    let modelNumber :=
      match mnRaw with
      | .vDict d => pyStr (dget d "text")
      | v => pyStr (pyOr v (.vStr ""))
    match pyInt? (pyOr (dgetD f "Current stock" (.vInt 0)) (.vInt 0)) with
    | none => .error ()
    | some stock =>
      let picUrl :=
        match dgetD f "Pictures" (.vList []) with
        | .vList (.vDict d :: _) => pyOr (dget d "url") (pyOr (dget d "value") (.vStr ""))
        | _ => .vStr ""
      .ok (some {
        partNum := pyStrip (pyStr (dget f "PN")),
        partName := strOf (dgetD f "English Name" (.vStr "")),
        modelNumber := modelNumber,
        modelName := strOf (pyOr (dgetD f "Model Name-English" (.vStr "")) (.vStr "")),
        stock := stock,
        picture := strOf picUrl,
        price := toFloat (dget f "Price (EUR)") 0 })

/-- The record loop of `load_lark_spare_parts` over already-fetched
records (source lines 73-99): sequential, the first raised error aborts. -/
def loadRows : List (List (String × Value)) → Except Unit (List Row)
  | [] => .ok []
  | f :: rest =>
    match normalizeRecord f with
    | .error e => .error e
    | .ok r? =>
      match loadRows rest with
      | .error e => .error e
      | .ok rs => .ok (match r? with | some r => r :: rs | none => rs)

/-- The parts job on fetched records: normalization followed by
aggregation (composition of `load_lark_spare_parts` and the row loop of
`build_snapshot`). -/
def pipeline (recs : List (List (String × Value))) :
    Except Unit (List MModel × List Part) :=
  (loadRows recs).map buildParts

/-- The path opened by the snapshot writer (source line 170). -/
def snapshotWritePath : String := "public/index.html"

/-- The path the final report line says was written (source line 174). -/
def reportedSnapshotPath : String := "public/parts.json"

/-- The model key of a row (source line 113): model number, falling back
to model name, trimmed. -/
def modelKey (r : Row) : String := pyStrip (orS r.modelNumber (orS r.modelName ""))

/-- The slug a row's model id starts from (source line 117): the slug of
the model number when the number is non-empty, else of the model name. -/
def modelBase (r : Row) : String :=
  if r.modelNumber ≠ "" then slug r.modelNumber else slug r.modelName

/-- The part entry stored at key `r.partNum` after processing row `r` in
state `st`: the previous entry (or the fresh initial one) with the model id
added and the scalar fields merged. -/
def stepPart (st : AggState) (r : Row) : PartAcc :=
  let base := (st.parts.lookup r.partNum).getD (initPart r)
  let base1 :=
    match (ensureModelId st.models r.modelNumber r.modelName).1 with
    | some mid => addCompat mid base
    | none => base
  mergeFields r base1

/-- The rows of a sequence carrying a given SKU, in order. -/
def rowsFor (s : String) (rows : List Row) : List Row :=
  rows.filter (fun r => decide (r.partNum = s))

/-- The last non-zero element of a list of prices, `0` when there is none:
the value a last-non-falsy-wins merge leaves behind. -/
def lastNonZero (xs : List Rat) : Rat :=
  ((xs.filter (fun q => q != 0)).getLast?).getD 0

/-- The last non-empty element of a list of strings, `""` when there is
none: the value a last-non-falsy-wins merge leaves behind. -/
def lastNonEmptyStr (xs : List String) : String :=
  ((xs.filter (fun t => t != "")).getLast?).getD ""

/-- Example row 1 of the spec's end-to-end property: PN "P1", price 5,
stock 2 (remaining fields empty). -/
def exRow1 : Row := ⟨"P1", "", "", "", 2, "", 5⟩

/-- Example row 2 of the spec's end-to-end property: PN "P1", price 0,
stock 0. -/
def exRow2 : Row := ⟨"P1", "", "", "", 0, "", 0⟩

/-- Example row 3 of the spec's end-to-end property: PN "P2", price 9,
stock 1. -/
def exRow3 : Row := ⟨"P2", "", "", "", 1, "", 9⟩

/-- Row A of the two-row merge property: price 10.0, empty image. -/
def c4RowA : Row := ⟨"p1", "", "", "", 3, "", 10⟩

/-- Row B of the two-row merge property: price 0.0, image "x.png". -/
def c4RowB : Row := ⟨"p1", "", "", "", 7, "x.png", 0⟩

/-- A raw record with a truthy but non-numeric `Current stock` value. -/
def badStockRec : List (String × Value) :=
  [("PN", .vStr "P1"), ("Current stock", .vStr "abc")]

/-- A raw record with a malformed price and a well-formed stock. -/
def badPriceRec : List (String × Value) :=
  [("PN", .vStr "P2"), ("Price (EUR)", .vStr "xx"), ("Current stock", .vInt 4)]

/-- A raw record with no `PN` field. -/
def noPnRec : List (String × Value) := [("English Name", .vStr "Widget")]

/-- A row carrying model number "ABC-123". -/
def c5Row : Row := ⟨"A", "", "ABC-123", "", 0, "", 0⟩

end PartsJson

namespace ShopifyMap

open PartsJson (lowerStr pyStrip parseInt? decStr)

/-- The `image` object of a variant node (`build_shopify_map.py` source
line 44): the two possible URL fields, either possibly absent. -/
structure VarImage where
  originalSrc : Option String
  url : Option String
deriving DecidableEq, Repr

/-- A catalog variant node of the products query (source lines 38-45). -/
structure Variant where
  id : String
  sku : Option String
  price : Option String
  availableForSale : Bool
  inventoryQuantity : Option Int
  image : Option VarImage
deriving DecidableEq, Repr

/-- A product node: handle and variant list (source lines 34-48). -/
structure Product where
  handle : String
  variants : List Variant
deriving DecidableEq, Repr

/-- A value of `sku_map` (source lines 72-80). -/
structure MapEntry where
  variant_id : Int
  gid : String
  price : Option String
  inventoryQuantity : Option Int
  availableForSale : Bool
  image : Option String
  handle : String
deriving DecidableEq, Repr

/-- Python `a or b` over optional strings, where both `None` and the empty
string are falsy. -/
def pyOrOS (a b : Option String) : Option String := if a.getD "" ≠ "" then a else b

/-- The SKU normalization of source line 64: `(v.get("sku") or "").strip().lower()`. -/
def normSku (v : Variant) : String := lowerStr (pyStrip (v.sku.getD ""))

/-- The trailing path segment `gid.rsplit("/", 1)[-1]` (source line 69). -/
def lastSegment (s : String) : String :=
  ⟨(s.data.reverse.takeWhile (fun c => c ≠ '/')).reverse⟩

/-- Python dict assignment `m[k] = v`: replace in place when the key is
present (keeping its position), append otherwise. -/
def dictSet (m : List (String × β)) (k : String) (v : β) : List (String × β) :=
  if (m.lookup k).isSome then m.map (fun kv => if kv.1 = k then (k, v) else kv)
  else m ++ [(k, v)]

/-- The entry built for one variant (source lines 67-80): `none` models
the unguarded `int(vid)` raising on a non-numeric trailing gid segment. -/
def mkEntry? (handle : String) (v : Variant) : Option MapEntry :=
  (parseInt? (lastSegment v.id)).map (fun n =>
    { variant_id := n, gid := v.id, price := v.price,
      inventoryQuantity := v.inventoryQuantity,
      availableForSale := v.availableForSale,
      image := pyOrOS (v.image.bind VarImage.url) (v.image.bind VarImage.originalSrc),
      handle := handle })

/-- Processing of one variant (source lines 63-80): skip on empty
normalized SKU; otherwise build the entry and assign it, last write wins;
a raised conversion error aborts. -/
def variantStep (m : List (String × MapEntry)) (handle : String) (v : Variant) :
    Except Unit (List (String × MapEntry)) :=
  let sku := normSku v
  if sku = "" then .ok m
  else
    match mkEntry? handle v with
    | none => .error ()
    | some e => .ok (dictSet m sku e)

/-- The variant traversal of `main` (source lines 57-83) over a flattened
list of (product handle, variant) pairs in traversal order. -/
def buildMapVars : List (String × Variant) → List (String × MapEntry) →
    Except Unit (List (String × MapEntry))
  | [], m => .ok m
  | (h, v) :: rest, m =>
    match variantStep m h v with
    | .error e => .error e
    | .ok m' => buildMapVars rest m'

/-- Flattening of the fetched products into (handle, variant) pairs in
page, product, variant order (source lines 59-62). -/
def allVariants (ps : List Product) : List (String × Variant) :=
  (ps.map (fun p => p.variants.map (fun v => (p.handle, v)))).flatten

/-- The SKU map built by `main` (source lines 54-83); `.error ()` means the
run aborted with an unhandled exception and no snapshot was written. -/
def buildMap (ps : List Product) : Except Unit (List (String × MapEntry)) :=
  buildMapVars (allVariants ps) []

/-- A GraphQL HTTP response as `run_gql` inspects it: status code and
whether the 200-body carries a top-level `errors` key (source lines 18-21). -/
structure GqlResp where
  status : Nat
  hasErrors : Bool
deriving DecidableEq, Repr

/-- Outcome of `run_gql`: a returned body (from the given attempt), a
raised GraphQL-errors RuntimeError, a raised HTTP-status RuntimeError, or
the final `Max retries` RuntimeError (source lines 14-27). -/
inductive GqlOutcome where
  | ok (attempt : Nat)
  | gqlError (attempt : Nat)
  | httpError (status : Nat)
  | maxRetries
deriving DecidableEq, Repr

/-- The transient statuses retried by `run_gql` (source line 23). -/
def transientStatus (s : Nat) : Bool := s = 429 || s = 520 || s = 502 || s = 503

/-- The retry loop of `run_gql` from attempt `i` with `fuel` attempts
remaining, also recording the backoff sleeps (`2 ** i` seconds, source
line 24) it performs. -/
def runGqlGo (resp : Nat → GqlResp) : Nat → Nat → List Nat × GqlOutcome
  | _, 0 => ([], .maxRetries)
  | i, fuel + 1 =>
    let r := resp i
    if r.status = 200 then
      if r.hasErrors then ([], .gqlError i) else ([], .ok i)
    else if transientStatus r.status then
      let rest := runGqlGo resp (i + 1) fuel
      (2 ^ i :: rest.1, rest.2)
    else ([], .httpError r.status)

/-- The function `run_gql` (source lines 14-27) on a stream of responses,
one per attempt: the backoff sleeps performed and the outcome. -/
def runGql (resp : Nat → GqlResp) (retries : Nat) : List Nat × GqlOutcome :=
  runGqlGo resp 0 retries

/-- The default retry bound of `run_gql` (source line 14). -/
def defaultRetries : Nat := 3

/-- A variant with SKU " ABC-1 " (numeric gid 111). -/
def c8v1 : Variant :=
  ⟨"gid://shopify/ProductVariant/111", some " ABC-1 ", some "9.99", true, some 5, none⟩

/-- A later variant with SKU "abc-1" (numeric gid 222) and different data. -/
def c8v2 : Variant :=
  ⟨"gid://shopify/ProductVariant/222", some "abc-1", some "7.50", false, some 2, none⟩

/-- A product carrying the two casing/whitespace-duplicate variants. -/
def c8prod : Product := ⟨"widget", [c8v1, c8v2]⟩

/-- A variant whose gid's trailing segment is not a decimal numeral. -/
def c10bad : Variant :=
  ⟨"gid://shopify/ProductVariant/abc", some "sku-1", some "1.00", true, some 1, none⟩

/-- A product carrying a well-formed variant and then the bad-gid one. -/
def c10prod : Product := ⟨"widget", [c8v1, c10bad]⟩

/-- A response stream answering 503 on every attempt. -/
def respAll503 : Nat → GqlResp := fun _ => ⟨503, false⟩

/-- A response stream answering 429 once and then 404. -/
def resp404 : Nat → GqlResp := fun i => if i = 0 then ⟨429, false⟩ else ⟨404, false⟩

/-- A response stream answering 200 with a GraphQL error payload. -/
def respGqlErr : Nat → GqlResp := fun _ => ⟨200, true⟩

/-- The map entry the later duplicate variant produces. -/
def c8entry : MapEntry :=
  { variant_id := 222, gid := "gid://shopify/ProductVariant/222", price := some "7.50",
    inventoryQuantity := some 2, availableForSale := false, image := none,
    handle := "widget" }

end ShopifyMap

/-! Supporting lemmas. -/

namespace PartsJson

theorem digitChar_toNat (d : Nat) (h : d < 10) : (digitChar d).toNat = 48 + d := by
  interval_cases d <;> rfl

theorem decVal_decDigitsAux (fuel : Nat) :
    ∀ n : Nat, n < fuel → decVal (decDigitsAux fuel n) = n := by
  induction fuel with
  | zero => intro n h; omega
  | succ fuel ih =>
    intro n h
    rw [decDigitsAux]
    by_cases h10 : n < 10
    · rw [if_pos h10]
      show 10 * 0 + ((digitChar n).toNat - 48) = n
      rw [digitChar_toNat n h10]
      omega
    · rw [if_neg h10]
      have hdiv : n / 10 < n := Nat.div_lt_self (by omega) (by omega)
      unfold decVal
      rw [List.foldl_append]
      show 10 * (decVal (decDigitsAux fuel (n / 10))) + ((digitChar (n % 10)).toNat - 48) = n
      rw [ih (n / 10) (by omega), digitChar_toNat (n % 10) (by omega)]
      omega

theorem decVal_decDigits (n : Nat) : decVal (decDigits n) = n :=
  decVal_decDigitsAux (n + 1) n (by omega)

theorem decStr_injective : Function.Injective decStr := by
  intro m n h
  have hd : decDigits m = decDigits n := congrArg String.data h
  have := congrArg decVal hd
  rwa [decVal_decDigits, decVal_decDigits] at this

theorem suffixId_injective (orig : String) : Function.Injective (suffixId orig) := by
  intro i j h
  simp only [suffixId] at h
  have hd := congrArg String.data h
  simp only [String.data_append, List.append_assoc] at hd
  have h1 := List.append_cancel_left hd
  have h2 := List.append_cancel_left h1
  exact decStr_injective (String.ext h2)

theorem exists_fresh_suffix (ids : List String) (orig : String) (i : Nat) :
    ∃ j, i ≤ j ∧ j < i + ids.length + 1 ∧ suffixId orig j ∉ ids := by
  by_contra hc
  push_neg at hc
  have hsub : (Finset.range (ids.length + 1)).image (fun d => suffixId orig (i + d)) ⊆
      ids.toFinset := by
    intro x hx
    rw [Finset.mem_image] at hx
    obtain ⟨d, hd, rfl⟩ := hx
    rw [Finset.mem_range] at hd
    exact List.mem_toFinset.mpr (hc (i + d) (by omega) (by omega))
  have hinj : Function.Injective (fun d => suffixId orig (i + d)) := by
    intro a b hab
    have := suffixId_injective orig hab
    omega
  have hcard := Finset.card_le_card hsub
  rw [Finset.card_image_of_injective _ hinj, Finset.card_range] at hcard
  have := List.toFinset_card_le (l := ids)
  omega

theorem freshLoop_not_mem (ids : List String) (orig : String) :
    ∀ fuel i, (∃ j, i ≤ j ∧ j < i + fuel ∧ suffixId orig j ∉ ids) →
      freshLoop ids orig i fuel ∉ ids := by
  intro fuel
  induction fuel with
  | zero =>
    intro i h
    obtain ⟨j, h1, h2, _⟩ := h
    omega
  | succ fuel ih =>
    intro i h
    obtain ⟨j, hij, hlt, hfree⟩ := h
    rw [freshLoop]
    by_cases hmem : suffixId orig i ∈ ids
    · rw [if_pos hmem]
      apply ih
      have hne : j ≠ i := by
        intro he
        exact hfree (he ▸ hmem)
      exact ⟨j, by omega, by omega, hfree⟩
    · rw [if_neg hmem]
      exact hmem

theorem freshId_not_mem (ids : List String) (orig : String) : freshId ids orig ∉ ids := by
  rw [freshId]
  by_cases h : orig ∈ ids
  · rw [if_pos h]
    apply freshLoop_not_mem
    obtain ⟨j, h1, h2, h3⟩ := exists_fresh_suffix ids orig 2
    exact ⟨j, h1, by omega, h3⟩
  · rw [if_neg h]
    exact h

theorem freshLoop_shape (ids : List String) (orig : String) :
    ∀ fuel i, 2 ≤ i → ∃ j, 2 ≤ j ∧ freshLoop ids orig i fuel = suffixId orig j := by
  intro fuel
  induction fuel with
  | zero => exact fun i hi => ⟨i, hi, rfl⟩
  | succ fuel ih =>
    intro i hi
    rw [freshLoop]
    by_cases hmem : suffixId orig i ∈ ids
    · rw [if_pos hmem]
      exact ih (i + 1) (by omega)
    · rw [if_neg hmem]
      exact ⟨i, hi, rfl⟩

theorem freshId_shape (ids : List String) (orig : String) :
    freshId ids orig = orig ∨ ∃ j, 2 ≤ j ∧ freshId ids orig = suffixId orig j := by
  rw [freshId]
  by_cases h : orig ∈ ids
  · rw [if_pos h]
    exact Or.inr (freshLoop_shape ids orig (ids.length + 1) 2 (by omega))
  · rw [if_neg h]
    exact Or.inl rfl

end PartsJson

namespace PartsJson

theorem lexLe_total : ∀ as bs : List Char, lexLe as bs = true ∨ lexLe bs as = true := by
  intro as
  induction as with
  | nil => intro bs; left; rfl
  | cons a as ih =>
    intro bs
    cases bs with
    | nil => right; rfl
    | cons b bs =>
      rw [lexLe, lexLe]
      by_cases hab : a = b
      · subst hab
        rw [if_pos rfl, if_pos rfl]
        exact ih bs
      · rw [if_neg hab, if_neg (Ne.symm hab)]
        rcases lt_trichotomy a b with h | h | h
        · left; exact decide_eq_true h
        · exact absurd h hab
        · right; exact decide_eq_true h

theorem lexLe_trans : ∀ as bs cs : List Char,
    lexLe as bs = true → lexLe bs cs = true → lexLe as cs = true := by
  intro as
  induction as with
  | nil => intro bs cs _ _; rfl
  | cons a as ih =>
    intro bs cs h1 h2
    cases bs with
    | nil => rw [lexLe] at h1; exact absurd h1 (by simp)
    | cons b bs =>
      cases cs with
      | nil => rw [lexLe] at h2; exact absurd h2 (by simp)
      | cons c cs =>
        rw [lexLe] at h1 h2 ⊢
        by_cases hab : a = b
        · subst hab
          rw [if_pos rfl] at h1
          by_cases hac : a = c
          · subst hac
            rw [if_pos rfl] at h2 ⊢
            exact ih bs cs h1 h2
          · rw [if_neg hac] at h2 ⊢
            exact h2
        · rw [if_neg hab] at h1
          have hab' : a < b := of_decide_eq_true h1
          by_cases hbc : b = c
          · subst hbc
            rw [if_neg hab]
            exact decide_eq_true hab'
          · rw [if_neg hbc] at h2
            have hbc' : b < c := of_decide_eq_true h2
            have hac : a < c := lt_trans hab' hbc'
            rw [if_neg (ne_of_lt hac)]
            exact decide_eq_true hac

instance : IsTotal String strLeP := ⟨fun a b => lexLe_total a.data b.data⟩

instance : IsTrans String strLeP := ⟨fun a b c => lexLe_trans a.data b.data c.data⟩

instance : IsTotal Part partLe := ⟨fun a b => lexLe_total a.sku.data b.sku.data⟩

instance : IsTrans Part partLe := ⟨fun a b c => lexLe_trans a.sku.data b.sku.data c.sku.data⟩

instance : IsTotal MModel modelLe :=
  ⟨fun a b => lexLe_total (lowerStr a.name).data (lowerStr b.name).data⟩

instance : IsTrans MModel modelLe :=
  ⟨fun a b c => lexLe_trans (lowerStr a.name).data (lowerStr b.name).data (lowerStr c.name).data⟩

theorem lookup_singleton_self (k : String) (v : β) :
    ([(k, v)] : List (String × β)).lookup k = some v := by
  simp [List.lookup]

theorem lookup_singleton_ne (k s : String) (v : β) (h : s ≠ k) :
    ([(k, v)] : List (String × β)).lookup s = none := by
  have hb : (s == k) = false := beq_eq_false_iff_ne.mpr h
  simp [List.lookup, hb]

theorem lookup_updateAt_self (k : String) (f : β → β) :
    ∀ l : List (String × β), (updateAt k f l).lookup k = (l.lookup k).map f := by
  intro l
  induction l with
  | nil => rfl
  | cons kv rest ih =>
    obtain ⟨k', v⟩ := kv
    rw [updateAt]
    by_cases h : k' = k
    · subst h
      simp [List.lookup]
    · rw [if_neg h]
      have hb : (k == k') = false := beq_eq_false_iff_ne.mpr (Ne.symm h)
      simp [List.lookup, hb, ih]

theorem lookup_updateAt_ne (k s : String) (f : β → β) (h : s ≠ k) :
    ∀ l : List (String × β), (updateAt k f l).lookup s = l.lookup s := by
  intro l
  induction l with
  | nil => rfl
  | cons kv rest ih =>
    obtain ⟨k', v⟩ := kv
    rw [updateAt]
    by_cases hk : k' = k
    · rw [if_pos hk]
      have hs' : s ≠ k' := fun he => h (hk ▸ he)
      have hb : (s == k') = false := beq_eq_false_iff_ne.mpr hs'
      simp [List.lookup, hb]
    · rw [if_neg hk]
      by_cases hs : s = k'
      · subst hs
        simp [List.lookup]
      · have hb : (s == k') = false := beq_eq_false_iff_ne.mpr hs
        simp [List.lookup, hb, ih]

theorem updateAt_keys (k : String) (f : β → β) :
    ∀ l : List (String × β), (updateAt k f l).map Prod.fst = l.map Prod.fst := by
  intro l
  induction l with
  | nil => rfl
  | cons kv rest ih =>
    obtain ⟨k', v⟩ := kv
    rw [updateAt]
    by_cases h : k' = k
    · subst h; simp
    · rw [if_neg h]
      simp [ih]

end PartsJson

namespace PartsJson

theorem ensureModelId_empty (models : List (String × MModel)) (r : Row)
    (hk : modelKey r = "") :
    ensureModelId models r.modelNumber r.modelName = (none, models) := by
  unfold modelKey at hk
  simp only [ensureModelId]
  rw [if_pos hk]

theorem ensureModelId_found (models : List (String × MModel)) (r : Row) (m : MModel)
    (hk : modelKey r ≠ "") (hm : models.lookup (modelKey r) = some m) :
    ensureModelId models r.modelNumber r.modelName = (some m.id, models) := by
  unfold modelKey at hk hm
  simp only [ensureModelId]
  rw [if_neg hk, hm]

theorem ensureModelId_new (models : List (String × MModel)) (r : Row)
    (hk : modelKey r ≠ "") (hm : models.lookup (modelKey r) = none) :
    ensureModelId models r.modelNumber r.modelName =
      (some (freshId (models.map (fun kv => kv.2.id)) (modelBase r)),
       models ++ [(modelKey r,
         ⟨freshId (models.map (fun kv => kv.2.id)) (modelBase r),
          orS r.modelName r.modelNumber⟩)]) := by
  unfold modelKey at hk hm
  unfold modelKey modelBase
  simp only [ensureModelId]
  rw [if_neg hk, hm]

theorem rowStep_models (st : AggState) (r : Row) :
    (rowStep st r).models = (ensureModelId st.models r.modelNumber r.modelName).2 := rfl

theorem rowStep_parts_self (st : AggState) (r : Row) :
    (rowStep st r).parts.lookup r.partNum = some (stepPart st r) := by
  simp only [rowStep, stepPart]
  cases hl : st.parts.lookup r.partNum with
  | some p =>
    rw [if_pos (show (some p).isSome = true from rfl)]
    cases hm : (ensureModelId st.models r.modelNumber r.modelName).1 with
    | some mid =>
      rw [lookup_updateAt_self, lookup_updateAt_self, hl]
      rfl
    | none =>
      rw [lookup_updateAt_self, hl]
      rfl
  | none =>
    rw [if_neg (show ¬(Option.none.isSome = true) from Bool.false_ne_true)]
    cases hm : (ensureModelId st.models r.modelNumber r.modelName).1 with
    | some mid =>
      rw [lookup_updateAt_self, lookup_updateAt_self, List.lookup_append, hl,
        lookup_singleton_self]
      rfl
    | none =>
      rw [lookup_updateAt_self, List.lookup_append, hl, lookup_singleton_self]
      rfl

theorem rowStep_parts_frame (st : AggState) (r : Row) (s : String) (h : s ≠ r.partNum) :
    (rowStep st r).parts.lookup s = st.parts.lookup s := by
  simp only [rowStep]
  have hbase :
      ((if (st.parts.lookup r.partNum).isSome then st.parts
        else st.parts ++ [(r.partNum, initPart r)]).lookup s) = st.parts.lookup s := by
    by_cases hc : (st.parts.lookup r.partNum).isSome = true
    · rw [if_pos hc]
    · rw [if_neg hc, List.lookup_append, lookup_singleton_ne _ _ _ h, Option.or_none]
  cases hm : (ensureModelId st.models r.modelNumber r.modelName).1 with
  | some mid =>
    rw [lookup_updateAt_ne _ _ _ h, lookup_updateAt_ne _ _ _ h]
    exact hbase
  | none =>
    rw [lookup_updateAt_ne _ _ _ h]
    exact hbase

end PartsJson

namespace PartsJson

theorem mergeFields_compat (r : Row) (p : PartAcc) : (mergeFields r p).compat = p.compat := rfl

theorem mergeFields_sku (r : Row) (p : PartAcc) : (mergeFields r p).sku = p.sku := rfl

theorem addCompat_sku (mid : String) (p : PartAcc) : (addCompat mid p).sku = p.sku := by
  unfold addCompat
  split <;> rfl

theorem addCompat_sub (mid : String) (p : PartAcc) : p.compat ⊆ (addCompat mid p).compat := by
  unfold addCompat
  split
  · exact fun x hx => hx
  · exact fun x hx => List.mem_append_left _ hx

theorem addCompat_mem (mid : String) (p : PartAcc) : mid ∈ (addCompat mid p).compat := by
  unfold addCompat
  by_cases hm : mid ∈ p.compat
  · rw [if_pos hm]
    exact hm
  · rw [if_neg hm]
    exact List.mem_append_right _ (List.mem_singleton.mpr rfl)

theorem addCompat_nodup (mid : String) (p : PartAcc) (h : p.compat.Nodup) :
    (addCompat mid p).compat.Nodup := by
  unfold addCompat
  by_cases hm : mid ∈ p.compat
  · rw [if_pos hm]
    exact h
  · rw [if_neg hm]
    rw [List.nodup_append]
    refine ⟨h, List.nodup_singleton _, ?_⟩
    intro x hx hx'
    rw [List.mem_singleton] at hx'
    exact hm (hx' ▸ hx)

theorem lookup_none_iff_not_mem_keys (k : String) (l : List (String × β)) :
    l.lookup k = none ↔ k ∉ l.map Prod.fst := by
  rw [List.lookup_eq_none_iff]
  constructor
  · intro h hk
    obtain ⟨⟨a, b⟩, hab, rfl⟩ := List.mem_map.mp hk
    have := h _ hab
    simp at this
  · intro h p hp
    have hne : k ≠ p.1 := fun he => h (he ▸ List.mem_map_of_mem Prod.fst hp)
    simpa using hne

theorem rowStep_models_extends (st : AggState) (r : Row) :
    ∃ tail, (rowStep st r).models = st.models ++ tail := by
  rw [rowStep_models]
  by_cases hk : modelKey r = ""
  · refine ⟨[], ?_⟩
    rw [ensureModelId_empty st.models r hk]
    simp
  · cases hm : st.models.lookup (modelKey r) with
    | some m =>
      refine ⟨[], ?_⟩
      rw [ensureModelId_found st.models r m hk hm]
      simp
    | none =>
      refine ⟨[(modelKey r,
        ⟨freshId (st.models.map (fun kv => kv.2.id)) (modelBase r),
         orS r.modelName r.modelNumber⟩)], ?_⟩
      rw [ensureModelId_new st.models r hk hm]

theorem foldl_rowStep_inv (P : AggState → Prop)
    (hstep : ∀ st r, P st → P (rowStep st r)) :
    ∀ (rows : List Row) (st : AggState), P st → P (rows.foldl rowStep st) := by
  intro rows
  induction rows with
  | nil => exact fun st h => h
  | cons r rest ih => exact fun st h => ih (rowStep st r) (hstep st r h)

theorem foldl_models_extends (rows : List Row) :
    ∀ st : AggState, ∃ tail, (rows.foldl rowStep st).models = st.models ++ tail := by
  induction rows with
  | nil => exact fun st => ⟨[], by simp⟩
  | cons r rest ih =>
    intro st
    rw [List.foldl_cons]
    obtain ⟨t1, ht1⟩ := rowStep_models_extends st r
    obtain ⟨t2, ht2⟩ := ih (rowStep st r)
    exact ⟨t1 ++ t2, by rw [ht2, ht1, List.append_assoc]⟩

theorem foldl_models_lookup_mono (rows : List Row) (st : AggState) (k : String)
    (m : MModel) (h : st.models.lookup k = some m) :
    (rows.foldl rowStep st).models.lookup k = some m := by
  obtain ⟨tail, ht⟩ := foldl_models_extends rows st
  rw [ht, List.lookup_append, h]
  rfl

theorem stepPart_compat_sub (st : AggState) (r : Row) (p : PartAcc)
    (h : st.parts.lookup r.partNum = some p) : p.compat ⊆ (stepPart st r).compat := by
  unfold stepPart
  rw [h]
  cases hm : (ensureModelId st.models r.modelNumber r.modelName).1 with
  | some mid =>
    rw [mergeFields_compat]
    exact addCompat_sub mid p
  | none => exact fun x hx => hx

theorem foldl_compat_mono (rows : List Row) :
    ∀ (st : AggState) (s : String) (p : PartAcc), st.parts.lookup s = some p →
      ∃ p', (rows.foldl rowStep st).parts.lookup s = some p' ∧ p.compat ⊆ p'.compat := by
  induction rows with
  | nil => exact fun st s p h => ⟨p, h, fun x hx => hx⟩
  | cons r rest ih =>
    intro st s p h
    rw [List.foldl_cons]
    by_cases hs : s = r.partNum
    · subst hs
      obtain ⟨p', hp', hsub⟩ :=
        ih (rowStep st r) r.partNum (stepPart st r) (rowStep_parts_self st r)
      exact ⟨p', hp', fun x hx => hsub (stepPart_compat_sub st r p h hx)⟩
    · refine ih (rowStep st r) s p ?_
      rw [rowStep_parts_frame st r s hs]
      exact h

end PartsJson

namespace PartsJson

theorem rowStep_parts_keys (st : AggState) (r : Row) :
    (rowStep st r).parts.map Prod.fst =
      if (st.parts.lookup r.partNum).isSome then st.parts.map Prod.fst
      else st.parts.map Prod.fst ++ [r.partNum] := by
  simp only [rowStep]
  cases hm : (ensureModelId st.models r.modelNumber r.modelName).1 with
  | some mid =>
    rw [updateAt_keys, updateAt_keys]
    by_cases hc : (st.parts.lookup r.partNum).isSome = true
    · rw [if_pos hc, if_pos hc]
    · rw [if_neg hc, if_neg hc, List.map_append]
      rfl
  | none =>
    rw [updateAt_keys]
    by_cases hc : (st.parts.lookup r.partNum).isSome = true
    · rw [if_pos hc, if_pos hc]
    · rw [if_neg hc, if_neg hc, List.map_append]
      rfl

theorem stepPart_sku (st : AggState) (r : Row)
    (hsku : ∀ p0, st.parts.lookup r.partNum = some p0 → p0.sku = r.partNum) :
    (stepPart st r).sku = r.partNum := by
  unfold stepPart
  cases hl : st.parts.lookup r.partNum with
  | some p0 =>
    cases hm : (ensureModelId st.models r.modelNumber r.modelName).1 with
    | some mid =>
      rw [mergeFields_sku, addCompat_sku]
      simp only [Option.getD_some]
      exact hsku p0 hl
    | none =>
      rw [mergeFields_sku]
      simp only [Option.getD_some]
      exact hsku p0 hl
  | none =>
    cases hm : (ensureModelId st.models r.modelNumber r.modelName).1 with
    | some mid =>
      rw [mergeFields_sku, addCompat_sku]
      simp only [Option.getD_none]
      rfl
    | none =>
      rw [mergeFields_sku]
      simp only [Option.getD_none]
      rfl

theorem stepPart_compat_nodup (st : AggState) (r : Row)
    (hnd : ∀ p0, st.parts.lookup r.partNum = some p0 → p0.compat.Nodup) :
    (stepPart st r).compat.Nodup := by
  unfold stepPart
  cases hl : st.parts.lookup r.partNum with
  | some p0 =>
    cases hm : (ensureModelId st.models r.modelNumber r.modelName).1 with
    | some mid =>
      rw [mergeFields_compat]
      simp only [Option.getD_some]
      exact addCompat_nodup mid p0 (hnd p0 hl)
    | none =>
      rw [mergeFields_compat]
      simp only [Option.getD_some]
      exact hnd p0 hl
  | none =>
    cases hm : (ensureModelId st.models r.modelNumber r.modelName).1 with
    | some mid =>
      rw [mergeFields_compat]
      simp only [Option.getD_none]
      exact addCompat_nodup mid (initPart r) List.nodup_nil
    | none =>
      rw [mergeFields_compat]
      simp only [Option.getD_none]
      exact List.nodup_nil

theorem aggState_inv (rows : List Row) :
    ((aggState rows).models.map (fun kv => kv.2.id)).Nodup ∧
    ((aggState rows).parts.map Prod.fst).Nodup ∧
    ∀ k p, (aggState rows).parts.lookup k = some p → p.sku = k ∧ p.compat.Nodup := by
  unfold aggState
  refine foldl_rowStep_inv
    (fun st => (st.models.map (fun kv => kv.2.id)).Nodup ∧
      (st.parts.map Prod.fst).Nodup ∧
      ∀ k p, st.parts.lookup k = some p → p.sku = k ∧ p.compat.Nodup)
    ?_ rows ⟨[], []⟩ ⟨List.nodup_nil, List.nodup_nil, fun k p h => by cases h⟩
  intro st r h
  obtain ⟨h1, h2, h3⟩ := h
  refine ⟨?_, ?_, ?_⟩
  · rw [rowStep_models]
    by_cases hk : modelKey r = ""
    · rw [ensureModelId_empty st.models r hk]
      exact h1
    · cases hm : st.models.lookup (modelKey r) with
      | some m =>
        rw [ensureModelId_found st.models r m hk hm]
        exact h1
      | none =>
        rw [ensureModelId_new st.models r hk hm]
        rw [List.map_append, List.nodup_append]
        refine ⟨h1, by simp, ?_⟩
        intro x hx hx'
        have hx2 : x = freshId (st.models.map (fun kv => kv.2.id)) (modelBase r) := by
          simpa using hx'
        exact freshId_not_mem _ _ (hx2 ▸ hx)
  · rw [rowStep_parts_keys]
    by_cases hc : (st.parts.lookup r.partNum).isSome = true
    · rw [if_pos hc]
      exact h2
    · rw [if_neg hc, List.nodup_append]
      refine ⟨h2, List.nodup_singleton _, ?_⟩
      intro x hx hx'
      rw [List.mem_singleton] at hx'
      subst hx'
      have hnone : st.parts.lookup r.partNum = none := by
        cases hcc : st.parts.lookup r.partNum with
        | none => rfl
        | some q => exact absurd (by rw [hcc]; rfl) hc
      exact (lookup_none_iff_not_mem_keys _ _).mp hnone hx
  · intro k p hp
    by_cases hs : k = r.partNum
    · subst hs
      rw [rowStep_parts_self] at hp
      injection hp with hp
      subst hp
      constructor
      · exact stepPart_sku st r (fun p0 h0 => (h3 r.partNum p0 h0).1)
      · exact stepPart_compat_nodup st r (fun p0 h0 => (h3 r.partNum p0 h0).2)
    · rw [rowStep_parts_frame st r k hs] at hp
      exact h3 k p hp

end PartsJson

namespace PartsJson

theorem addCompat_fields (mid : String) (p : PartAcc) :
    (addCompat mid p).price = p.price ∧ (addCompat mid p).stock = p.stock ∧
    (addCompat mid p).image = p.image ∧ (addCompat mid p).name = p.name := by
  unfold addCompat
  split <;> exact ⟨rfl, rfl, rfl, rfl⟩

theorem stepPart_fields (st : AggState) (r : Row) :
    ((stepPart st r).price = if r.price ≠ 0 then r.price
        else ((st.parts.lookup r.partNum).getD (initPart r)).price) ∧
    ((stepPart st r).stock = r.stock) ∧
    ((stepPart st r).image = if r.picture ≠ "" then r.picture
        else ((st.parts.lookup r.partNum).getD (initPart r)).image) ∧
    ((stepPart st r).name = if r.partName ≠ "" then r.partName
        else ((st.parts.lookup r.partNum).getD (initPart r)).name) := by
  unfold stepPart
  cases hm : (ensureModelId st.models r.modelNumber r.modelName).1 with
  | some mid =>
    obtain ⟨ha, hb, hc, hd⟩ :=
      addCompat_fields mid ((st.parts.lookup r.partNum).getD (initPart r))
    refine ⟨?_, ?_, ?_, ?_⟩
    · show (if r.price ≠ 0 then r.price else (addCompat mid _).price) = _
      rw [ha]
    · rfl
    · show (if r.picture ≠ "" then r.picture else (addCompat mid _).image) = _
      rw [hc]
    · show (if r.partName ≠ "" then r.partName else (addCompat mid _).name) = _
      rw [hd]
  | none => exact ⟨rfl, rfl, rfl, rfl⟩

theorem aggState_concat (rows : List Row) (r : Row) :
    aggState (rows ++ [r]) = rowStep (aggState rows) r := by
  unfold aggState
  rw [List.foldl_append]
  rfl

theorem rowsFor_concat (s : String) (rows : List Row) (r : Row) :
    rowsFor s (rows ++ [r]) = rowsFor s rows ++ if r.partNum = s then [r] else [] := by
  unfold rowsFor
  rw [List.filter_append]
  congr 1
  by_cases h : r.partNum = s
  · simp [h]
  · simp [h]

theorem lookup_parts_none_iff (rows : List Row) (s : String) :
    (aggState rows).parts.lookup s = none ↔ rowsFor s rows = [] := by
  induction rows using List.reverseRecOn with
  | nil => simp [aggState, rowsFor]
  | append_singleton rows r ih =>
    rw [aggState_concat, rowsFor_concat]
    by_cases hs : r.partNum = s
    · rw [if_pos hs]
      constructor
      · intro h
        rw [← hs, rowStep_parts_self] at h
        cases h
      · intro h
        exact absurd h (by simp)
    · rw [if_neg hs, List.append_nil]
      rw [rowStep_parts_frame _ _ _ (fun he => hs he.symm)]
      exact ih

theorem lastNonZero_concat (xs : List Rat) (a : Rat) :
    lastNonZero (xs ++ [a]) = if a ≠ 0 then a else lastNonZero xs := by
  unfold lastNonZero
  rw [List.filter_append]
  by_cases h : a = 0
  · simp [h]
  · simp [h, List.getLast?_concat]

theorem lastNonEmptyStr_concat (xs : List String) (a : String) :
    lastNonEmptyStr (xs ++ [a]) = if a ≠ "" then a else lastNonEmptyStr xs := by
  unfold lastNonEmptyStr
  rw [List.filter_append]
  by_cases h : a = ""
  · simp [h]
  · simp [h, List.getLast?_concat]

theorem partEntry_fields (rows : List Row) (s : String) (h : rowsFor s rows ≠ []) :
    ∃ p, (aggState rows).parts.lookup s = some p ∧
      p.price = lastNonZero ((rowsFor s rows).map Row.price) ∧
      p.stock = (((rowsFor s rows).map Row.stock).getLast?).getD 0 ∧
      p.image = lastNonEmptyStr ((rowsFor s rows).map Row.picture) ∧
      p.name = lastNonEmptyStr ((rowsFor s rows).map Row.partName) := by
  induction rows using List.reverseRecOn with
  | nil => exact absurd rfl h
  | append_singleton rows r ih =>
    by_cases hs : r.partNum = s
    · subst hs
      rw [aggState_concat, rowsFor_concat, if_pos rfl, rowStep_parts_self]
      obtain ⟨hP, hSt, hI, hN⟩ := stepPart_fields (aggState rows) r
      refine ⟨stepPart (aggState rows) r, rfl, ?_, ?_, ?_, ?_⟩
      · rw [hP]
        simp only [List.map_append, List.map_cons, List.map_nil]
        rw [lastNonZero_concat]
        by_cases hz : r.price = 0
        · rw [if_neg (by simp [hz]), if_neg (by simp [hz])]
          by_cases h0 : rowsFor r.partNum rows = []
          · rw [(lookup_parts_none_iff rows r.partNum).mpr h0, h0]
            simp [initPart, lastNonZero, hz]
          · obtain ⟨p, hp, hp1, _, _, _⟩ := ih h0
            rw [hp]
            simpa using hp1
        · rw [if_pos hz, if_pos hz]
      · rw [hSt]
        simp only [List.map_append, List.map_cons, List.map_nil]
        rw [List.getLast?_concat]
        rfl
      · rw [hI]
        simp only [List.map_append, List.map_cons, List.map_nil]
        rw [lastNonEmptyStr_concat]
        by_cases hz : r.picture = ""
        · rw [if_neg (by simp [hz]), if_neg (by simp [hz])]
          by_cases h0 : rowsFor r.partNum rows = []
          · rw [(lookup_parts_none_iff rows r.partNum).mpr h0, h0]
            simp [initPart, lastNonEmptyStr, orS, hz]
          · obtain ⟨p, hp, _, _, hp3, _⟩ := ih h0
            rw [hp]
            simpa using hp3
        · rw [if_pos hz, if_pos hz]
      · rw [hN]
        simp only [List.map_append, List.map_cons, List.map_nil]
        rw [lastNonEmptyStr_concat]
        by_cases hz : r.partName = ""
        · rw [if_neg (by simp [hz]), if_neg (by simp [hz])]
          by_cases h0 : rowsFor r.partNum rows = []
          · rw [(lookup_parts_none_iff rows r.partNum).mpr h0, h0]
            simp [initPart, lastNonEmptyStr, orS, hz]
          · obtain ⟨p, hp, _, _, _, hp4⟩ := ih h0
            rw [hp]
            simpa using hp4
        · rw [if_pos hz, if_pos hz]
    · have h' : rowsFor s rows ≠ [] := by
        rw [rowsFor_concat, if_neg hs, List.append_nil] at h
        exact h
      rw [aggState_concat, rowsFor_concat, if_neg hs, List.append_nil]
      rw [rowStep_parts_frame _ _ _ (fun he => hs he.symm)]
      exact ih h'

end PartsJson

namespace PartsJson

theorem mem_lookup_of_nodup (l : List (String × β)) (hnd : (l.map Prod.fst).Nodup)
    (kv : String × β) (h : kv ∈ l) : l.lookup kv.1 = some kv.2 := by
  induction l with
  | nil => cases h
  | cons hd tl ih =>
    obtain ⟨k0, v0⟩ := hd
    rw [List.map_cons, List.nodup_cons] at hnd
    cases h with
    | head => simp [List.lookup]
    | tail _ htl =>
      have hne : kv.1 ≠ k0 := by
        intro he
        have hmem : kv.1 ∈ tl.map Prod.fst := List.mem_map_of_mem Prod.fst htl
        rw [he] at hmem
        exact hnd.1 hmem
      have hb : (kv.1 == k0) = false := beq_eq_false_iff_ne.mpr hne
      simp only [List.lookup, hb]
      exact ih hnd.2 htl

theorem mem_buildParts_parts (rows : List Row) (s : String) (p : PartAcc)
    (h : (aggState rows).parts.lookup s = some p) :
    finalizePart p ∈ (buildParts rows).2 := by
  have hm : (s, p) ∈ (aggState rows).parts := by
    obtain ⟨l₁, l₂, heq, _⟩ := List.lookup_eq_some_iff.mp h
    rw [heq]
    exact List.mem_append_right _ (List.mem_cons_self _ _)
  unfold buildParts
  simp only [List.mem_insertionSort]
  exact List.mem_map.mpr ⟨(s, p), hm, rfl⟩

theorem buildParts_skus_nodup (rows : List Row) :
    ((buildParts rows).2.map Part.sku).Nodup := by
  obtain ⟨_, h2, h3⟩ := aggState_inv rows
  have hperm : List.Perm ((buildParts rows).2)
      ((aggState rows).parts.map (fun kv => finalizePart kv.2)) :=
    List.perm_insertionSort _ _
  have hmapeq : ((aggState rows).parts.map (fun kv => finalizePart kv.2)).map Part.sku
      = (aggState rows).parts.map Prod.fst := by
    rw [List.map_map]
    refine List.map_congr_left ?_
    intro kv hkv
    have := (h3 kv.1 kv.2 (mem_lookup_of_nodup _ h2 kv hkv)).1
    exact this
  have := (hperm.map Part.sku).nodup_iff.mpr (hmapeq ▸ h2)
  exact this

theorem stepPart_compat_mem (st : AggState) (r : Row) (mid : String)
    (hm : (ensureModelId st.models r.modelNumber r.modelName).1 = some mid) :
    mid ∈ (stepPart st r).compat := by
  unfold stepPart
  rw [hm, mergeFields_compat]
  exact addCompat_mem mid _

theorem compat_complete (rows : List Row) (r : Row) (hr : r ∈ rows) (hk : modelKey r ≠ "") :
    ∃ m, (aggState rows).models.lookup (modelKey r) = some m ∧
      ∃ p, (aggState rows).parts.lookup r.partNum = some p ∧ m.id ∈ p.compat := by
  obtain ⟨l1, l2, rfl⟩ := List.append_of_mem hr
  have hsplit : aggState (l1 ++ r :: l2) = l2.foldl rowStep (rowStep (aggState l1) r) := by
    unfold aggState
    rw [List.foldl_append, List.foldl_cons]
  rw [hsplit]
  cases hlm : (aggState l1).models.lookup (modelKey r) with
  | some m =>
    have he := ensureModelId_found (aggState l1).models r m hk hlm
    have hm1 : (ensureModelId (aggState l1).models r.modelNumber r.modelName).1
        = some m.id := by rw [he]
    have hlook1 : (rowStep (aggState l1) r).models.lookup (modelKey r) = some m := by
      rw [rowStep_models, he]
      exact hlm
    refine ⟨m, foldl_models_lookup_mono l2 _ _ _ hlook1, ?_⟩
    obtain ⟨p', hp', hsub⟩ := foldl_compat_mono l2 (rowStep (aggState l1) r) r.partNum
      (stepPart (aggState l1) r) (rowStep_parts_self (aggState l1) r)
    exact ⟨p', hp', hsub (stepPart_compat_mem (aggState l1) r m.id hm1)⟩
  | none =>
    have he := ensureModelId_new (aggState l1).models r hk hlm
    have hm1 : (ensureModelId (aggState l1).models r.modelNumber r.modelName).1
        = some (freshId ((aggState l1).models.map (fun kv => kv.2.id)) (modelBase r)) := by
      rw [he]
    have hlook1 : (rowStep (aggState l1) r).models.lookup (modelKey r)
        = some ⟨freshId ((aggState l1).models.map (fun kv => kv.2.id)) (modelBase r),
            orS r.modelName r.modelNumber⟩ := by
      rw [rowStep_models, he, List.lookup_append, hlm, lookup_singleton_self]
      rfl
    refine ⟨_, foldl_models_lookup_mono l2 _ _ _ hlook1, ?_⟩
    obtain ⟨p', hp', hsub⟩ := foldl_compat_mono l2 (rowStep (aggState l1) r) r.partNum
      (stepPart (aggState l1) r) (rowStep_parts_self (aggState l1) r)
    exact ⟨p', hp', hsub (stepPart_compat_mem (aggState l1) r _ hm1)⟩

end PartsJson

namespace PartsJson

theorem models_lookup_origin (rows : List Row) :
    ∀ (st : AggState) (k : String) (m : MModel),
      ((rows.foldl rowStep st).models.lookup k = some m) →
      st.models.lookup k = some m ∨
      ∃ r ∈ rows, modelKey r = k ∧
        (m.id = modelBase r ∨ ∃ j, 2 ≤ j ∧ m.id = suffixId (modelBase r) j) := by
  induction rows with
  | nil => exact fun st k m h => Or.inl h
  | cons r rest ih =>
    intro st k m h
    rw [List.foldl_cons] at h
    rcases ih (rowStep st r) k m h with hst | ⟨r', hr', hk', hshape⟩
    · rw [rowStep_models] at hst
      by_cases hk : modelKey r = ""
      · rw [ensureModelId_empty st.models r hk] at hst
        exact Or.inl hst
      · cases hlm : st.models.lookup (modelKey r) with
        | some m0 =>
          rw [ensureModelId_found st.models r m0 hk hlm] at hst
          exact Or.inl hst
        | none =>
          rw [ensureModelId_new st.models r hk hlm, List.lookup_append] at hst
          cases hst0 : st.models.lookup k with
          | some m1 =>
            rw [hst0, Option.or_some] at hst
            exact Or.inl hst
          | none =>
            rw [hst0, Option.none_or] at hst
            by_cases hkk : k = modelKey r
            · subst hkk
              rw [lookup_singleton_self] at hst
              injection hst with hst
              refine Or.inr ⟨r, List.mem_cons_self r rest, rfl, ?_⟩
              rw [← hst]
              exact freshId_shape _ _
            · rw [lookup_singleton_ne _ _ _ hkk] at hst
              cases hst
    · exact Or.inr ⟨r', List.mem_cons_of_mem r hr', hk', hshape⟩

theorem models_immutable (rows extra : List Row) (k : String) (m : MModel)
    (h : (aggState rows).models.lookup k = some m) :
    (aggState (rows ++ extra)).models.lookup k = some m := by
  unfold aggState at h ⊢
  rw [List.foldl_append]
  exact foldl_models_lookup_mono extra _ k m h

theorem buildParts_parts_sorted (rows : List Row) :
    List.Sorted partLe ((buildParts rows).2) := by
  unfold buildParts
  exact List.sorted_insertionSort partLe _

theorem buildParts_models_sorted (rows : List Row) :
    List.Sorted modelLe ((buildParts rows).1) := by
  unfold buildParts
  exact List.sorted_insertionSort modelLe _

theorem buildParts_compat_sorted (rows : List Row) (p : Part)
    (hp : p ∈ (buildParts rows).2) :
    List.Sorted strLeP p.compatible_models ∧ p.compatible_models.Nodup := by
  unfold buildParts at hp
  simp only [List.mem_insertionSort] at hp
  obtain ⟨kv, hkv, rfl⟩ := List.mem_map.mp hp
  constructor
  · exact List.sorted_insertionSort strLeP _
  · obtain ⟨_, h2, h3⟩ := aggState_inv rows
    have hnd := (h3 kv.1 kv.2 (mem_lookup_of_nodup _ h2 kv hkv)).2
    exact (List.perm_insertionSort strLeP kv.2.compat).nodup_iff.mpr hnd

theorem buildParts_model_ids_nodup (rows : List Row) :
    (((buildParts rows).1).map MModel.id).Nodup := by
  obtain ⟨h1, _, _⟩ := aggState_inv rows
  have hperm : List.Perm ((buildParts rows).1)
      ((aggState rows).models.map (fun kv => kv.2)) :=
    List.perm_insertionSort _ _
  have hmm : ((aggState rows).models.map (fun kv => kv.2)).map MModel.id
      = (aggState rows).models.map (fun kv => kv.2.id) := by
    rw [List.map_map]
    rfl
  exact (hperm.map MModel.id).nodup_iff.mpr (hmm ▸ h1)

end PartsJson

namespace ShopifyMap

theorem lookup_mapReplace {β : Type} (k : String) (v : β) :
    ∀ m : List (String × β),
      ((m.map (fun kv => if kv.1 = k then (k, v) else kv)).lookup k) =
        ((m.lookup k).map (fun _ => v)) := by
  intro m
  induction m with
  | nil => rfl
  | cons kv rest ih =>
    obtain ⟨k0, v0⟩ := kv
    by_cases hk : k0 = k
    · subst hk
      simp only [List.map_cons, if_pos (show (k0, v0).1 = k0 from rfl)]
      simp [List.lookup]
    · simp only [List.map_cons, if_neg (show ¬((k0, v0).1 = k) from hk)]
      have hb : (k == k0) = false := beq_eq_false_iff_ne.mpr (Ne.symm hk)
      simp only [List.lookup, hb]
      exact ih

theorem dictSet_lookup_self {β : Type} (m : List (String × β)) (k : String) (v : β) :
    (dictSet m k v).lookup k = some v := by
  unfold dictSet
  by_cases hc : (m.lookup k).isSome = true
  · rw [if_pos hc, lookup_mapReplace]
    cases hl : m.lookup k with
    | none => rw [hl] at hc; cases hc
    | some w => rfl
  · rw [if_neg hc, List.lookup_append]
    cases hl : m.lookup k with
    | none => rw [PartsJson.lookup_singleton_self, Option.none_or]
    | some w => exact absurd (by rw [hl]; rfl) hc

theorem dictSet_lookup_ne {β : Type} (m : List (String × β)) (k s : String) (v : β)
    (h : s ≠ k) : (dictSet m k v).lookup s = m.lookup s := by
  unfold dictSet
  by_cases hc : (m.lookup k).isSome = true
  · rw [if_pos hc]
    clear hc
    induction m with
    | nil => rfl
    | cons kv rest ih =>
      obtain ⟨k0, v0⟩ := kv
      by_cases hk : k0 = k
      · subst hk
        simp only [List.map_cons, if_pos (show (k0, v0).1 = k0 from rfl)]
        have hb : (s == k0) = false := beq_eq_false_iff_ne.mpr h
        simp only [List.lookup, hb]
        exact ih
      · simp only [List.map_cons, if_neg (show ¬((k0, v0).1 = k) from hk)]
        simp only [List.lookup]
        cases hsk : (s == k0) with
        | true => rfl
        | false => exact ih
  · rw [if_neg hc, List.lookup_append, PartsJson.lookup_singleton_ne _ _ _ h,
      Option.or_none]

open PartsJson (parseInt?) in
theorem variantStep_lookup_ne (m m' : List (String × MapEntry)) (hd : String)
    (v : Variant) (s : String) (h : variantStep m hd v = .ok m')
    (hne : normSku v ≠ s) : m'.lookup s = m.lookup s := by
  unfold variantStep at h
  by_cases h0 : normSku v = ""
  · rw [if_pos h0] at h
    injection h with h
    subst h
    rfl
  · rw [if_neg h0] at h
    cases he : mkEntry? hd v with
    | none => rw [he] at h; cases h
    | some e =>
      rw [he] at h
      injection h with h
      subst h
      exact dictSet_lookup_ne _ _ _ _ (fun x => hne x.symm)

theorem variantStep_lookup_self (m m' : List (String × MapEntry)) (hd : String)
    (v : Variant) (s : String) (hs : normSku v = s) (hne : s ≠ "")
    (h : variantStep m hd v = .ok m') : m'.lookup s = mkEntry? hd v := by
  unfold variantStep at h
  rw [hs, if_neg hne] at h
  cases he : mkEntry? hd v with
  | none => rw [he] at h; cases h
  | some e =>
    rw [he] at h
    injection h with h
    subst h
    rw [dictSet_lookup_self]

theorem buildMapVars_lookup (s : String) (hs : s ≠ "") :
    ∀ (vars : List (String × Variant)) (m res : List (String × MapEntry)),
      buildMapVars vars m = .ok res →
      res.lookup s =
        ((vars.filter (fun hv => decide (normSku hv.2 = s))).getLast?).elim
          (m.lookup s) (fun hv => mkEntry? hv.1 hv.2) := by
  intro vars
  induction vars with
  | nil =>
    intro m res h
    injection h with h
    subst h
    rfl
  | cons hv rest ih =>
    intro m res h
    obtain ⟨hd, v⟩ := hv
    rw [buildMapVars] at h
    cases hstep : variantStep m hd v with
    | error e => rw [hstep] at h; cases h
    | ok m' =>
      rw [hstep] at h
      have ihr := ih m' res h
      rw [List.filter_cons]
      by_cases hmatch : normSku v = s
      · rw [if_pos (by simpa using hmatch)]
        cases hfr : rest.filter (fun hv => decide (normSku hv.2 = s)) with
        | nil =>
          rw [hfr] at ihr
          simp only [List.getLast?_singleton, Option.elim]
          rw [ihr]
          simp only [Option.elim]
          exact variantStep_lookup_self m m' hd v s hmatch hs hstep
        | cons x xs =>
          rw [hfr] at ihr
          rw [List.getLast?_cons_cons]
          exact ihr
      · rw [if_neg (by simpa using hmatch)]
        cases hfr : rest.filter (fun hv => decide (normSku hv.2 = s)) with
        | nil =>
          rw [hfr] at ihr
          simp only [Option.elim] at ihr ⊢
          rw [ihr]
          exact variantStep_lookup_ne m m' hd v s hstep hmatch
        | cons x xs =>
          rw [hfr] at ihr
          exact ihr

open PartsJson (parseInt?) in
theorem buildMapVars_error (hv : String × Variant) (hsku : normSku hv.2 ≠ "")
    (hbad : parseInt? (lastSegment hv.2.id) = none) :
    ∀ (vars1 vars2 : List (String × Variant)) (m : List (String × MapEntry)),
      buildMapVars (vars1 ++ hv :: vars2) m = .error () := by
  intro vars1
  induction vars1 with
  | nil =>
    intro vars2 m
    obtain ⟨hd, v⟩ := hv
    rw [List.nil_append, buildMapVars]
    have hstep : variantStep m hd v = .error () := by
      unfold variantStep mkEntry?
      rw [if_neg hsku, hbad]
      rfl
    rw [hstep]
  | cons w rest ih =>
    intro vars2 m
    obtain ⟨hd0, v0⟩ := w
    rw [List.cons_append, buildMapVars]
    cases hstep : variantStep m hd0 v0 with
    | error e => cases e; rfl
    | ok m' => exact ih vars2 m'

theorem runGqlGo_all_transient (resp : Nat → GqlResp) :
    ∀ (fuel i : Nat),
      (∀ j, i ≤ j → j < i + fuel → transientStatus (resp j).status = true) →
      runGqlGo resp i fuel = ((List.range' i fuel).map (fun j => 2 ^ j), .maxRetries) := by
  intro fuel
  induction fuel with
  | zero => intro i _; rfl
  | succ fuel ih =>
    intro i h
    rw [runGqlGo]
    have ht : transientStatus (resp i).status = true := h i (le_refl i) (by omega)
    have h200 : ¬((resp i).status = 200) := by
      intro he
      rw [he] at ht
      simp [transientStatus] at ht
    rw [if_neg h200, if_pos ht]
    rw [ih (i + 1) (fun j hj1 hj2 => h j (by omega) (by omega))]
    rw [List.range'_succ, List.map_cons]

theorem runGqlGo_http (resp : Nat → GqlResp) :
    ∀ (d fuel i : Nat), d < fuel →
      (∀ j, i ≤ j → j < i + d → transientStatus (resp j).status = true) →
      (resp (i + d)).status ≠ 200 → transientStatus (resp (i + d)).status = false →
      runGqlGo resp i fuel =
        ((List.range' i d).map (fun j => 2 ^ j), .httpError (resp (i + d)).status) := by
  intro d
  induction d with
  | zero =>
    intro fuel i hd hpre h200 htr
    simp only [Nat.add_zero] at h200 htr
    cases fuel with
    | zero => omega
    | succ fuel =>
      rw [runGqlGo]
      rw [if_neg h200, if_neg (by simp [htr])]
      rfl
  | succ d ih =>
    intro fuel i hd hpre h200 htr
    cases fuel with
    | zero => omega
    | succ fuel =>
      rw [runGqlGo]
      have ht : transientStatus (resp i).status = true := hpre i (le_refl i) (by omega)
      have h200i : ¬((resp i).status = 200) := by
        intro he
        rw [he] at ht
        simp [transientStatus] at ht
      rw [if_neg h200i, if_pos ht]
      have harg : i + (d + 1) = (i + 1) + d := by omega
      rw [ih fuel (i + 1) (by omega)
        (fun j h1 h2 => hpre j (by omega) (by omega))
        (by rw [← harg]; exact h200) (by rw [← harg]; exact htr)]
      rw [List.range'_succ, List.map_cons, harg]

theorem runGqlGo_gql (resp : Nat → GqlResp) :
    ∀ (d fuel i : Nat), d < fuel →
      (∀ j, i ≤ j → j < i + d → transientStatus (resp j).status = true) →
      (resp (i + d)).status = 200 → (resp (i + d)).hasErrors = true →
      runGqlGo resp i fuel =
        ((List.range' i d).map (fun j => 2 ^ j), .gqlError (i + d)) := by
  intro d
  induction d with
  | zero =>
    intro fuel i hd hpre h200 herr
    simp only [Nat.add_zero] at h200 herr
    cases fuel with
    | zero => omega
    | succ fuel =>
      rw [runGqlGo]
      rw [if_pos h200, if_pos herr]
      rfl
  | succ d ih =>
    intro fuel i hd hpre h200 herr
    cases fuel with
    | zero => omega
    | succ fuel =>
      rw [runGqlGo]
      have ht : transientStatus (resp i).status = true := hpre i (le_refl i) (by omega)
      have h200i : ¬((resp i).status = 200) := by
        intro he
        rw [he] at ht
        simp [transientStatus] at ht
      rw [if_neg h200i, if_pos ht]
      have harg : i + (d + 1) = (i + 1) + d := by omega
      rw [ih fuel (i + 1) (by omega)
        (fun j h1 h2 => hpre j (by omega) (by omega))
        (by rw [← harg]; exact h200) (by rw [← harg]; exact herr)]
      rw [List.range'_succ, List.map_cons, harg]

end ShopifyMap

namespace PartsJson

theorem normalizeRecord_error_iff (f : List (String × Value)) :
    normalizeRecord f = .error () ↔
      truthy (dget f "PN") = true ∧
      pyInt? (pyOr (dgetD f "Current stock" (.vInt 0)) (.vInt 0)) = none := by
  unfold normalizeRecord
  by_cases hp : truthy (dget f "PN") = true
  · rw [if_neg (by simp [hp])]
    cases hs : pyInt? (pyOr (dgetD f "Current stock" (.vInt 0)) (.vInt 0)) with
    | none => simp [hp]
    | some n => simp [hp]
  · rw [if_pos (by simpa using hp)]
    simp [hp]

theorem loadRows_error (recs : List (List (String × Value)))
    (h : loadRows recs = .error ()) :
    ∃ f ∈ recs, pyInt? (pyOr (dgetD f "Current stock" (.vInt 0)) (.vInt 0)) = none := by
  induction recs with
  | nil => simp [loadRows] at h
  | cons f rest ih =>
    rw [loadRows] at h
    cases hn : normalizeRecord f with
    | error e =>
      cases e
      exact ⟨f, List.mem_cons_self _ _, ((normalizeRecord_error_iff f).mp hn).2⟩
    | ok r? =>
      rw [hn] at h
      cases hr : loadRows rest with
      | error e =>
        cases e
        obtain ⟨g, hg, hx⟩ := ih hr
        exact ⟨g, List.mem_cons_of_mem _ hg, hx⟩
      | ok rs =>
        rw [hr] at h
        cases h

theorem loadRows_drop (f : List (String × Value)) (h : truthy (dget f "PN") = false) :
    ∀ pre post, loadRows (pre ++ f :: post) = loadRows (pre ++ post) := by
  have hn : normalizeRecord f = .ok none := by
    unfold normalizeRecord
    rw [if_pos (by simp [h])]
  intro pre
  induction pre with
  | nil =>
    intro post
    rw [List.nil_append, List.nil_append, loadRows, hn]
    cases hr : loadRows post with
    | error e => rfl
    | ok rs => rfl
  | cons g rest ih =>
    intro post
    rw [List.cons_append, List.cons_append, loadRows, loadRows]
    cases hg : normalizeRecord g with
    | error e => rfl
    | ok r? => rw [ih post]

end PartsJson

/-! Claim theorems. -/

namespace PartsJson

/-- C1 counterexample: the spec's end-to-end example fails on the code.
The three rows (P1, price 5, stock 2), (P1, price 0, stock 0),
(P2, price 9, stock 1) do not yield P1 with stock 2: the `isinstance` guard
on source line 144 holds for every normalized row, so the later row's
stock 0 overwrites and P1 comes out with stock 0. -/
theorem claim_C1_counterexample :
    (buildParts [exRow1, exRow2, exRow3]).2
      = [{ sku := "P1", name := "", price_eur := 5, stock := 0, image := "",
           compatible_models := [] },
         { sku := "P2", name := "", price_eur := 9, stock := 1, image := "",
           compatible_models := [] }] ∧
    (buildParts [exRow1, exRow2, exRow3]).2
      ≠ [{ sku := "P1", name := "", price_eur := 5, stock := 2, image := "",
           compatible_models := [] },
         { sku := "P2", name := "", price_eur := 9, stock := 1, image := "",
           compatible_models := [] }] := by
  exact ⟨rfl, by decide⟩

/-- C1 (amended): for every sequence of normalized rows sharing a SKU, the
aggregated part's price, image and name each equal the value of the latest
row carrying a non-falsy value for that field (the falsy default when no
row does), but stock equals the last row's stock unconditionally (the
`isinstance(..., int)` guard on line 144 always holds on normalized rows);
the three example rows therefore yield P1 with price 5 and stock 0, and P2
with price 9 and stock 1, in that order. -/
theorem claim_C1_amended :
    (∀ (rows : List Row) (s : String), rowsFor s rows ≠ [] →
      ∃ p, p ∈ (buildParts rows).2 ∧ p.sku = s ∧
        p.price_eur = lastNonZero ((rowsFor s rows).map Row.price) ∧
        p.stock = (((rowsFor s rows).map Row.stock).getLast?).getD 0 ∧
        p.image = lastNonEmptyStr ((rowsFor s rows).map Row.picture) ∧
        p.name = lastNonEmptyStr ((rowsFor s rows).map Row.partName)) ∧
    (buildParts [exRow1, exRow2, exRow3]).2
      = [{ sku := "P1", name := "", price_eur := 5, stock := 0, image := "",
           compatible_models := [] },
         { sku := "P2", name := "", price_eur := 9, stock := 1, image := "",
           compatible_models := [] }] := by
  constructor
  · intro rows s h
    obtain ⟨p, hp, h1, h2, h3, h4⟩ := partEntry_fields rows s h
    obtain ⟨_, _, hinv⟩ := aggState_inv rows
    exact ⟨finalizePart p, mem_buildParts_parts rows s p hp, (hinv s p hp).1,
      h1, h2, h3, h4⟩
  · rfl

/-- Witness for the amended C1 at the example rows and SKU "P1". -/
theorem claim_C1_amended_witness :
    ∃ p, p ∈ (buildParts [exRow1, exRow2, exRow3]).2 ∧ p.sku = "P1" ∧
      p.price_eur = lastNonZero ((rowsFor "P1" [exRow1, exRow2, exRow3]).map Row.price) ∧
      p.stock = (((rowsFor "P1" [exRow1, exRow2, exRow3]).map Row.stock).getLast?).getD 0 ∧
      p.image = lastNonEmptyStr ((rowsFor "P1" [exRow1, exRow2, exRow3]).map Row.picture) ∧
      p.name = lastNonEmptyStr ((rowsFor "P1" [exRow1, exRow2, exRow3]).map Row.partName) :=
  claim_C1_amended.1 [exRow1, exRow2, exRow3] "P1" (by decide)

/-- C2: the snapshot writer does not write the parts snapshot file. The
`with open` on source line 170 targets `public/index.html`, not the
`public/parts.json` the report line on 174 announces; moreover the write
block under it is mis-indented (line 171 sits at the same indentation as
the `with`), an IndentationError at parse time, so no file is written at
all. -/
theorem claim_C2 : snapshotWritePath ≠ reportedSnapshotPath := by decide

/-- C3 counterexample: a truthy non-numeric `Current stock` value aborts
the run (the `int()` on source line 84 is unguarded), while a malformed
price is absorbed to 0.0: the claim that no malformed stock value is fatal
is false. -/
theorem claim_C3_counterexample :
    loadRows [badStockRec] = .error () ∧
    normalizeRecord badPriceRec =
      .ok (some { partNum := "P2", partName := "", modelNumber := "None",
                  modelName := "", stock := 4, picture := "", price := 0 }) := by
  exact ⟨rfl, rfl⟩

/-- C3 (amended): the row normalizer aborts exactly when the part number is
truthy and the `or 0`-guarded `int()` coercion of `Current stock` raises
(i.e. the stock value is truthy and not integer-convertible); in
particular malformed prices never abort (the `_to_float` fallback absorbs
them), and a whole-run abort always traces back to such a stock value. -/
theorem claim_C3_amended :
    (∀ f : List (String × Value),
      normalizeRecord f = .error () ↔
        truthy (dget f "PN") = true ∧
        pyInt? (pyOr (dgetD f "Current stock" (.vInt 0)) (.vInt 0)) = none) ∧
    (∀ recs, loadRows recs = .error () →
      ∃ g ∈ recs, pyInt? (pyOr (dgetD g "Current stock" (.vInt 0)) (.vInt 0)) = none) :=
  ⟨normalizeRecord_error_iff, loadRows_error⟩

/-- Witness for the amended C3 at the malformed-stock record. -/
theorem claim_C3_witness :
    ∃ g ∈ [badStockRec],
      pyInt? (pyOr (dgetD g "Current stock" (.vInt 0)) (.vInt 0)) = none :=
  claim_C3_amended.2 [badStockRec] (by rfl)

/-- C4: with two rows of the same SKU, row A with price 10.0 and empty
image and a later row B with price 0.0 and image "x.png", the resulting
part keeps price 10 (the falsy 0.0 does not overwrite) and takes image
"x.png". -/
theorem claim_C4 :
    (buildParts [c4RowA, c4RowB]).2 =
      [{ sku := "p1", name := "", price_eur := 10, stock := 7, image := "x.png",
         compatible_models := [] }] := rfl

/-- C5: model identifiers in the output are unique for every input row
sequence; every stored model's id is the slug of the creating row's model
number (or model name when the number is empty) either bare or
disambiguated with a numeric suffix `-j`, `j ≥ 2`; and a model entry,
once created for a key, survives unchanged under any further rows. -/
theorem claim_C5 :
    (∀ rows : List Row, (((buildParts rows).1).map MModel.id).Nodup) ∧
    (∀ (rows : List Row) (k : String) (m : MModel),
      (aggState rows).models.lookup k = some m →
      ∃ r ∈ rows, modelKey r = k ∧
        (m.id = modelBase r ∨ ∃ j, 2 ≤ j ∧ m.id = suffixId (modelBase r) j)) ∧
    (∀ (rows extra : List Row) (k : String) (m : MModel),
      (aggState rows).models.lookup k = some m →
      (aggState (rows ++ extra)).models.lookup k = some m) := by
  refine ⟨buildParts_model_ids_nodup, ?_, models_immutable⟩
  intro rows k m h
  unfold aggState at h
  rcases models_lookup_origin rows ⟨[], []⟩ k m h with h0 | h0
  · exact absurd h0 (by simp)
  · exact h0

/-- Witness for C5 at a single row with model number "ABC-123". -/
theorem claim_C5_witness :
    ∃ r ∈ [c5Row], modelKey r = "ABC-123" ∧
      ((⟨"abc-123", "ABC-123"⟩ : MModel).id = modelBase r ∨
        ∃ j, 2 ≤ j ∧ (⟨"abc-123", "ABC-123"⟩ : MModel).id = suffixId (modelBase r) j) :=
  claim_C5.2.1 [c5Row] "ABC-123" ⟨"abc-123", "ABC-123"⟩ (by rfl)

/-- C6: for every input row sequence the output parts are sorted by SKU
ascending with unique SKUs, the output models are sorted by lowercased
display name ascending, each part's compatible-models list is sorted
ascending without duplicates, and every row with a non-empty model key
contributes its key's model id to its SKU's compatible-models list (so a
SKU appearing under two different keys carries both resulting ids). -/
theorem claim_C6 :
    ∀ rows : List Row,
      List.Sorted partLe ((buildParts rows).2) ∧
      List.Sorted modelLe ((buildParts rows).1) ∧
      (((buildParts rows).2).map Part.sku).Nodup ∧
      (∀ p ∈ (buildParts rows).2,
        List.Sorted strLeP p.compatible_models ∧ p.compatible_models.Nodup) ∧
      (∀ r ∈ rows, modelKey r ≠ "" →
        ∃ m p, (aggState rows).models.lookup (modelKey r) = some m ∧
          p ∈ (buildParts rows).2 ∧ p.sku = r.partNum ∧
          m.id ∈ p.compatible_models) := by
  intro rows
  refine ⟨buildParts_parts_sorted rows, buildParts_models_sorted rows,
    buildParts_skus_nodup rows, fun p hp => buildParts_compat_sorted rows p hp, ?_⟩
  intro r hr hk
  obtain ⟨m, hm, p, hp, hmem⟩ := compat_complete rows r hr hk
  obtain ⟨_, _, hinv⟩ := aggState_inv rows
  exact ⟨m, finalizePart p, hm, mem_buildParts_parts rows r.partNum p hp,
    (hinv r.partNum p hp).1, (List.mem_insertionSort strLeP).mpr hmem⟩

/-- Witness for C6's membership property at a single row. -/
theorem claim_C6_witness :
    ∃ m p, (aggState [c5Row]).models.lookup (modelKey c5Row) = some m ∧
      p ∈ (buildParts [c5Row]).2 ∧ p.sku = c5Row.partNum ∧
      m.id ∈ p.compatible_models :=
  (claim_C6 [c5Row]).2.2.2.2 c5Row (List.mem_cons_self _ _) (by decide)

/-- C7: a source record whose part identifier is falsy (missing or empty)
is dropped by the normalizer and contributes nothing: removing it from the
record sequence leaves the loaded rows and the entire parts/models output
unchanged. -/
theorem claim_C7 :
    ∀ (f : List (String × Value)), truthy (dget f "PN") = false →
      ∀ pre post, loadRows (pre ++ f :: post) = loadRows (pre ++ post) ∧
        pipeline (pre ++ f :: post) = pipeline (pre ++ post) := by
  intro f h pre post
  have h1 := loadRows_drop f h pre post
  refine ⟨h1, ?_⟩
  unfold pipeline
  rw [h1]

/-- Witness for C7 at a record with no `PN` field. -/
theorem claim_C7_witness :
    loadRows ([badPriceRec] ++ noPnRec :: []) = loadRows ([badPriceRec] ++ []) ∧
    pipeline ([badPriceRec] ++ noPnRec :: []) = pipeline ([badPriceRec] ++ []) :=
  claim_C7 noPnRec (by rfl) [badPriceRec] []

end PartsJson

namespace ShopifyMap

/-- C8: the commerce map builder lowercases and trims each variant's SKU,
skips variants whose normalized SKU is empty, and inserts with
unconditional last-write-wins: the map entry for a non-empty SKU is
exactly the entry of the last variant in traversal order with that
normalized SKU; in particular " ABC-1 " followed by "abc-1" collapses to
the single key "abc-1" holding only the later variant's data. -/
theorem claim_C8 :
    (∀ (m : List (String × MapEntry)) (hd : String) (v : Variant),
      normSku v = "" → variantStep m hd v = .ok m) ∧
    (∀ (vars : List (String × Variant)) (res : List (String × MapEntry)) (s : String),
      s ≠ "" → buildMapVars vars [] = .ok res →
      res.lookup s =
        ((vars.filter (fun hv => decide (normSku hv.2 = s))).getLast?).elim
          none (fun hv => mkEntry? hv.1 hv.2)) ∧
    buildMap [c8prod] = .ok [("abc-1", c8entry)] := by
  refine ⟨?_, ?_, rfl⟩
  · intro m hd v h
    simp [variantStep, h]
  · intro vars res s hs h
    have := buildMapVars_lookup s hs vars [] res h
    simpa using this

/-- Witness for C8's last-write-wins characterization at the duplicate
variants. -/
theorem claim_C8_witness :
    ([("abc-1", c8entry)] : List (String × MapEntry)).lookup "abc-1" =
      (((allVariants [c8prod]).filter
          (fun hv => decide (normSku hv.2 = "abc-1"))).getLast?).elim
        none (fun hv => mkEntry? hv.1 hv.2) :=
  claim_C8.2.1 (allVariants [c8prod]) [("abc-1", c8entry)] "abc-1" (by decide) (by rfl)

/-- C9: the catalog fetcher retries only the transient statuses
429/502/503/520 with backoff sleeps of 2^attempt seconds and fails with
"Max retries" after the bound (default 3) is exhausted; any other
non-200 status fails immediately with no further attempt; and a 200
response carrying a GraphQL `errors` payload is fatal at once. -/
theorem claim_C9 :
    (∀ (resp : Nat → GqlResp) (retries : Nat),
      (∀ i, i < retries → transientStatus (resp i).status = true) →
      runGql resp retries = ((List.range retries).map (fun i => 2 ^ i), .maxRetries)) ∧
    (∀ (resp : Nat → GqlResp) (retries d : Nat), d < retries →
      (∀ j, j < d → transientStatus (resp j).status = true) →
      (resp d).status ≠ 200 → transientStatus (resp d).status = false →
      runGql resp retries =
        ((List.range d).map (fun i => 2 ^ i), .httpError (resp d).status)) ∧
    (∀ (resp : Nat → GqlResp) (retries d : Nat), d < retries →
      (∀ j, j < d → transientStatus (resp j).status = true) →
      (resp d).status = 200 → (resp d).hasErrors = true →
      runGql resp retries = ((List.range d).map (fun i => 2 ^ i), .gqlError d)) := by
  refine ⟨?_, ?_, ?_⟩
  · intro resp retries h
    unfold runGql
    rw [runGqlGo_all_transient resp retries 0 (fun j h1 h2 => h j (by omega)),
      List.range_eq_range']
  · intro resp retries d hd hpre h200 htr
    unfold runGql
    have h1 : (resp (0 + d)).status ≠ 200 := by rw [Nat.zero_add]; exact h200
    have h2 : transientStatus (resp (0 + d)).status = false := by
      rw [Nat.zero_add]; exact htr
    have h3 := runGqlGo_http resp d retries 0 hd
      (fun j ha hb => hpre j (by omega)) h1 h2
    rw [Nat.zero_add] at h3
    rw [h3, List.range_eq_range']
  · intro resp retries d hd hpre h200 herr
    unfold runGql
    have h1 : (resp (0 + d)).status = 200 := by rw [Nat.zero_add]; exact h200
    have h2 : (resp (0 + d)).hasErrors = true := by rw [Nat.zero_add]; exact herr
    have h3 := runGqlGo_gql resp d retries 0 hd
      (fun j ha hb => hpre j (by omega)) h1 h2
    rw [Nat.zero_add] at h3
    rw [h3, List.range_eq_range']

/-- Witness for C9's retry exhaustion on an all-503 response stream. -/
theorem claim_C9_witness :
    runGql respAll503 defaultRetries =
      ((List.range defaultRetries).map (fun i => 2 ^ i), .maxRetries) :=
  claim_C9.1 respAll503 defaultRetries (fun _ _ => rfl)

/-- C10: a variant whose gid's trailing path segment is not a decimal
numeral makes the whole run abort (the `int(vid)` on source line 73 is
unguarded), wherever the variant sits in the traversal, so no snapshot is
written; and an absent image field flows through as null, not as an empty
string. -/
theorem claim_C10 :
    (∀ (vars1 vars2 : List (String × Variant)) (hv : String × Variant)
        (m : List (String × MapEntry)), normSku hv.2 ≠ "" →
        PartsJson.parseInt? (lastSegment hv.2.id) = none →
        buildMapVars (vars1 ++ hv :: vars2) m = .error ()) ∧
    buildMap [c10prod] = .error () ∧
    (∀ (hd : String) (v : Variant) (e : MapEntry), v.image = none →
      mkEntry? hd v = some e → e.image = none) := by
  refine ⟨?_, rfl, ?_⟩
  · intro vars1 vars2 hv m h1 h2
    exact buildMapVars_error hv h1 h2 vars1 vars2 m
  · intro hd v e himg he
    unfold mkEntry? at he
    cases hp : PartsJson.parseInt? (lastSegment v.id) with
    | none => rw [hp] at he; cases he
    | some n =>
      rw [hp] at he
      injection he with he
      subst he
      simp [pyOrOS, himg]

/-- Witness for C10's abort at the bad-gid variant. -/
theorem claim_C10_witness :
    buildMapVars ([("widget", c8v1)] ++ ("widget", c10bad) :: []) [] = .error () :=
  claim_C10.1 [("widget", c8v1)] [] ("widget", c10bad) [] (by decide) (by rfl)

end ShopifyMap
